import Mathlib

/-!
Verification development for the `template-jsx` library: a shallow embedding
of its tree model (`Element`, `Node`), construction-time flattening, the
recursive serializer (`render` / `renderInternal`), and the `Switch`/`Case`/
`Default` and `HtmlPage`/`Head` helper components, together with theorems
checking the natural-language specification against this embedding.

JavaScript values appearing as element attribute values and as `Switch`
scrutinees are modelled by `JsValue` (strings, integral numbers, booleans);
JavaScript loose equality (`==`) and string-to-number coercion are modelled
on this fragment.  A JavaScript exception (a thrown `TypeError`) is modelled
by `Except.error`.
-/

namespace TJsx

/-- JavaScript primitive values used as attribute values and scrutinees.
`num` models integral JS numbers (all numbers occurring in this library's
documented usage are integers). -/
inductive JsValue where
  | str (s : String)
  | num (n : Int)
  | bool (b : Bool)
deriving DecidableEq, Repr

/-- A property bag (`Props = { [key: string]: any }`), as an insertion-ordered
association list with unique keys, matching JS object key semantics. -/
abbrev Props := List (String × JsValue)

/-- The `name` field of an `Element`: either a user tag-name string or one of
the reserved sentinel symbols `Fragment`, `HTML`, `CASE`, `DEFAULT`, `HEAD`
(distinct symbol identities in the source). -/
inductive NodeName where
  | str (s : String)
  | Fragment
  | HTML
  | CASE
  | DEFAULT
  | HEAD
deriving DecidableEq, Repr

/-- `type Node = Element | string | Node[]`: a text node, a raw array of
nodes, or an `Element` (name, props, children). -/
inductive Node where
  | text (s : String)
  | seq (xs : List Node)
  | elem (name : NodeName) (props : Props) (children : List Node)
deriving Repr

/-- `flatten` from the source: splices nested arrays and the children of
fragment elements in place, in order; everything else is kept as is. -/
def flatten : List Node → List Node
  | [] => []
  | Node.text s :: rest => Node.text s :: flatten rest
  | Node.seq xs :: rest => flatten xs ++ flatten rest
  | Node.elem NodeName.Fragment _ cs :: rest => flatten cs ++ flatten rest
  | Node.elem (NodeName.str s) p cs :: rest => Node.elem (NodeName.str s) p cs :: flatten rest
  | Node.elem NodeName.HTML p cs :: rest => Node.elem NodeName.HTML p cs :: flatten rest
  | Node.elem NodeName.CASE p cs :: rest => Node.elem NodeName.CASE p cs :: flatten rest
  | Node.elem NodeName.DEFAULT p cs :: rest => Node.elem NodeName.DEFAULT p cs :: flatten rest
  | Node.elem NodeName.HEAD p cs :: rest => Node.elem NodeName.HEAD p cs :: flatten rest
termination_by l => sizeOf l

/-- The `Element` constructor: stores the name and props and the
construction-time-flattened children (`this.children = flatten(children)`). -/
def mkElement (name : NodeName) (props : Props) (children : List Node) : Node :=
  Node.elem name props (flatten children)

/-- True for nodes that are neither a raw array nor a fragment element:
the shapes that `flatten` keeps at the top level. -/
def topFlat : Node → Bool
  | Node.seq _ => false
  | Node.elem NodeName.Fragment _ _ => false
  | _ => true

theorem flatten_nil : flatten [] = [] := by simp [flatten]

theorem flatten_text_cons (s : String) (rest : List Node) :
    flatten (Node.text s :: rest) = Node.text s :: flatten rest := by
  simp [flatten]

theorem flatten_seq_cons (xs rest : List Node) :
    flatten (Node.seq xs :: rest) = flatten xs ++ flatten rest := by
  simp [flatten]

theorem flatten_frag_cons (p : Props) (cs rest : List Node) :
    flatten (Node.elem NodeName.Fragment p cs :: rest) = flatten cs ++ flatten rest := by
  simp [flatten]

theorem flatten_cons_of_topFlat (c : Node) (rest : List Node) (h : topFlat c = true) :
    flatten (c :: rest) = c :: flatten rest := by
  cases c with
  | text s => simp [flatten]
  | seq xs => simp [topFlat] at h
  | elem n p cs =>
    cases n with
    | str s => simp [flatten]
    | Fragment => simp [topFlat] at h
    | HTML => simp [flatten]
    | CASE => simp [flatten]
    | DEFAULT => simp [flatten]
    | HEAD => simp [flatten]

theorem topFlat_of_mem_flatten : ∀ (l : List Node), ∀ x ∈ flatten l, topFlat x = true := by
  intro l
  induction l using flatten.induct with
  | case1 => simp [flatten]
  | case2 s rest ih =>
    intro x hx
    rw [flatten_text_cons] at hx
    rcases List.mem_cons.mp hx with h | h
    · simp [h, topFlat]
    · exact ih x h
  | case3 xs rest ih1 ih2 =>
    intro x hx
    rw [flatten_seq_cons] at hx
    rcases List.mem_append.mp hx with h | h
    · exact ih1 x h
    · exact ih2 x h
  | case4 p cs rest ih1 ih2 =>
    intro x hx
    rw [flatten_frag_cons] at hx
    rcases List.mem_append.mp hx with h | h
    · exact ih1 x h
    · exact ih2 x h
  | case5 s p cs rest ih =>
    intro x hx
    rw [flatten_cons_of_topFlat _ _ (by simp [topFlat])] at hx
    rcases List.mem_cons.mp hx with h | h
    · simp [h, topFlat]
    · exact ih x h
  | case6 p cs rest ih =>
    intro x hx
    rw [flatten_cons_of_topFlat _ _ (by simp [topFlat])] at hx
    rcases List.mem_cons.mp hx with h | h
    · simp [h, topFlat]
    · exact ih x h
  | case7 p cs rest ih =>
    intro x hx
    rw [flatten_cons_of_topFlat _ _ (by simp [topFlat])] at hx
    rcases List.mem_cons.mp hx with h | h
    · simp [h, topFlat]
    · exact ih x h
  | case8 p cs rest ih =>
    intro x hx
    rw [flatten_cons_of_topFlat _ _ (by simp [topFlat])] at hx
    rcases List.mem_cons.mp hx with h | h
    · simp [h, topFlat]
    · exact ih x h
  | case9 p cs rest ih =>
    intro x hx
    rw [flatten_cons_of_topFlat _ _ (by simp [topFlat])] at hx
    rcases List.mem_cons.mp hx with h | h
    · simp [h, topFlat]
    · exact ih x h

theorem flatten_of_topFlat : ∀ (l : List Node), (∀ x ∈ l, topFlat x = true) → flatten l = l := by
  intro l
  induction l with
  | nil => intro _; simp [flatten]
  | cons c rest ih =>
    intro h
    rw [flatten_cons_of_topFlat c rest (h c (by simp))]
    rw [ih (fun x hx => h x (by simp [hx]))]

theorem flatten_idem (l : List Node) : flatten (flatten l) = flatten l :=
  flatten_of_topFlat (flatten l) (topFlat_of_mem_flatten l)

/-- Accumulator loop for decimal digit parsing. -/
def digitsValGo : List Char → Nat → Option Nat
  | [], acc => some acc
  | c :: rest, acc =>
    if c.isDigit then digitsValGo rest (10 * acc + (c.toNat - 48)) else none

/-- Value of a non-empty all-decimal-digit character list; `none` otherwise. -/
def digitsVal : List Char → Option Nat
  | [] => none
  | c :: rest => digitsValGo (c :: rest) 0

/-- Strip leading and trailing whitespace characters, as JavaScript
`ToNumber` does before parsing a numeric string. -/
def trimChars (cs : List Char) : List Char :=
  ((cs.dropWhile Char.isWhitespace).reverse.dropWhile Char.isWhitespace).reverse

/-- Models JavaScript `ToNumber` applied to a string, on the fragment of
optionally-signed decimal integer literals with surrounding whitespace
(`""` and whitespace-only give `0`; anything else non-integral gives `none`,
playing the role of `NaN`).  Non-integer numeric syntaxes (floats, hex,
exponents) are outside the modelled value space. -/
def jsStringToNumber (s : String) : Option Int :=
  match trimChars s.toList with
  | [] => some 0
  | '+' :: rest => (digitsVal rest).map (fun n => (n : Int))
  | '-' :: rest => (digitsVal rest).map (fun n => -(n : Int))
  | c :: rest => (digitsVal (c :: rest)).map (fun n => (n : Int))

/-- JavaScript loose equality `==` on the modelled value fragment: same-type
values compare by value; a number and a string compare by converting the
string with `ToNumber`; a boolean first converts to its number (0 or 1). -/
def jsEq : JsValue → JsValue → Bool
  | JsValue.str a, JsValue.str b => a == b
  | JsValue.num a, JsValue.num b => a == b
  | JsValue.bool a, JsValue.bool b => a == b
  | JsValue.num a, JsValue.str s => jsStringToNumber s == some a
  | JsValue.str s, JsValue.num a => jsStringToNumber s == some a
  | JsValue.bool a, JsValue.num b => (if a then (1 : Int) else 0) == b
  | JsValue.num a, JsValue.bool b => a == (if b then (1 : Int) else 0)
  | JsValue.bool a, JsValue.str s => jsStringToNumber s == some (if a then (1 : Int) else 0)
  | JsValue.str s, JsValue.bool b => jsStringToNumber s == some (if b then (1 : Int) else 0)

/-- JavaScript truthiness of a modelled value. -/
def truthy : JsValue → Bool
  | JsValue.str s => s != ""
  | JsValue.num n => n != 0
  | JsValue.bool b => b

/-- Truthiness of a possibly-absent property (`undefined` is falsy). -/
def truthyOpt : Option JsValue → Bool
  | none => false
  | some v => truthy v

/-- JS string conversion of a modelled value (template-literal interpolation). -/
def jsToString : JsValue → String
  | JsValue.str s => s
  | JsValue.num n => toString n
  | JsValue.bool b => if b then "true" else "false"

/-- JS property assignment `props[k] = v` on the ordered key-value model:
an existing key keeps its position and gets the new value; a new key is
appended at the end. -/
def setProp (props : Props) (k : String) (v : JsValue) : Props :=
  if (props.lookup k).isSome then
    props.map (fun kv => if kv.1 == k then (k, v) else kv)
  else
    props ++ [(k, v)]

/-- The `className` → `class` materialization from `renderInternal`:
`if (node.props.className && !node.props.class) node.props.class = node.props.className`.
The in-place mutation is modelled as a pure derivation of the updated bag. -/
def applyClassAlias (props : Props) : Props :=
  match props.lookup "className" with
  | some v => if truthy v && !truthyOpt (props.lookup "class") then setProp props "class" v else props
  | none => props

/-- `createAttrs` from the source: one ` key="value"` chunk per property, in
property order, concatenated. -/
def createAttrs (props : Props) : String :=
  String.join (props.map (fun kv => " " ++ kv.1 ++ "=\"" ++ jsToString kv.2 ++ "\""))

/-- The `useSelfCloseTags` option value: `boolean | string[]`. -/
inductive SelfCloseOption where
  | bool (b : Bool)
  | list (l : List String)
deriving DecidableEq, Repr

/-- Options after `render` has filled in the defaults. -/
structure RenderOptions where
  indent : Bool
  indentString : String
  indentSize : Nat
  useSelfCloseTags : SelfCloseOption
deriving DecidableEq, Repr

/-- Caller-supplied `RenderOptions` object: every field may be absent. -/
structure RenderOptionsIn where
  indent : Option Bool
  indentString : Option String
  indentSize : Option Nat
  useSelfCloseTags : Option SelfCloseOption
deriving DecidableEq, Repr

/-- The option-defaulting spread at the top of `render`:
`{ indent: false, indentString: "", indentSize: 4, useSelfCloseTags: true, ...options }`. -/
def resolveOptions (o : RenderOptionsIn) : RenderOptions where
  indent := o.indent.getD false
  indentString := o.indentString.getD ""
  indentSize := o.indentSize.getD 4
  useSelfCloseTags := o.useSelfCloseTags.getD (SelfCloseOption.bool true)

/-- An empty options object (`render`'s default argument `{}`). -/
def defaultOptionsIn : RenderOptionsIn := ⟨none, none, none, none⟩

/-- The fully-defaulted options. -/
def defaultResolved : RenderOptions := resolveOptions defaultOptionsIn

/-- `s.repeat(n)`. -/
def repeatStr (s : String) (n : Nat) : String :=
  String.join (List.replicate n s)

/-- `createIndent` from the source. -/
def createIndent (o : RenderOptions) (indentation : Nat) : String :=
  if !o.indent then ""
  else if o.indentString != "" then repeatStr o.indentString indentation
  else if o.indentSize != 0 then repeatStr " " (indentation * o.indentSize)
  else ""

/-- Models `options.useSelfCloseTags == true` (JS loose equality): a boolean
compares directly; an array converts via `ToPrimitive` (its comma-join) and
then numerically against `ToNumber(true) = 1`, so e.g. `["1"] == true`. -/
def jsEqTrueSelfClose : SelfCloseOption → Bool
  | SelfCloseOption.bool b => b
  | SelfCloseOption.list l => jsStringToNumber (String.intercalate "," l) == some 1

/-- `options.useSelfCloseTags instanceof Array && options.useSelfCloseTags.includes(name)`. -/
def selfCloseListHas : SelfCloseOption → String → Bool
  | SelfCloseOption.bool _, _ => false
  | SelfCloseOption.list l, nm => l.contains nm

/-- The parenthesized disjunction in the source's self-close test. -/
def selfCloseEnabled (sc : SelfCloseOption) (nm : String) : Bool :=
  jsEqTrueSelfClose sc || selfCloseListHas sc nm

/-- The whole self-close test:
`node.children.length == 0 && (options.useSelfCloseTags == true || (... instanceof Array && ....includes(node.name)))`. -/
def selfCloseFlag (cs : List Node) (sc : SelfCloseOption) (nm : String) : Bool :=
  cs.length == 0 && selfCloseEnabled sc nm

/-- The message of the `TypeError` JavaScript throws when a template literal
interpolates a symbol (`<${node.name}`) — reached when a reserved sentinel
element lands in the generic serializer branch. -/
def symbolErr : String := "TypeError: Cannot convert a Symbol to a string"

/-- True for `n instanceof Element && n.name == HEAD`. -/
def isHeadElem : Node → Bool
  | Node.elem NodeName.HEAD _ _ => true
  | _ => false

/-- The `children` field of an element (`[]` for non-elements; only applied
to nodes already known to be elements, matching the source's cast). -/
def childrenOf : Node → List Node
  | Node.elem _ _ cs => cs
  | _ => []

/-- The head extraction of the document-wrapper branch: find the first
`HEAD`-named element child, return its children together with the remaining
children (`findIndex` + `splice`); no such child gives `([], children)`. -/
def splitHead : List Node → List Node × List Node
  | [] => ([], [])
  | c :: rest =>
    if isHeadElem c then (childrenOf c, rest)
    else
      let r := splitHead rest
      (r.1, c :: r.2)

theorem childrenOf_sizeOf_le (c : Node) : sizeOf (childrenOf c) ≤ sizeOf c := by
  cases c with
  | text s => show sizeOf ([] : List Node) ≤ _; simp only [List.nil.sizeOf_spec, Node.text.sizeOf_spec]; omega
  | seq xs => show sizeOf ([] : List Node) ≤ _; simp only [List.nil.sizeOf_spec, Node.seq.sizeOf_spec]; omega
  | elem n p cs => show sizeOf cs ≤ _; simp only [Node.elem.sizeOf_spec]; omega

theorem splitHead_fst_sizeOf (l : List Node) : sizeOf (splitHead l).1 ≤ sizeOf l := by
  induction l with
  | nil => show sizeOf ([] : List Node) ≤ sizeOf ([] : List Node); omega
  | cons c rest ih =>
    show sizeOf (if isHeadElem c then (childrenOf c, rest) else
      ((splitHead rest).1, c :: (splitHead rest).2)).1 ≤ sizeOf (c :: rest)
    by_cases h : isHeadElem c = true
    · rw [if_pos h]
      have h1 := childrenOf_sizeOf_le c
      have h2 : (childrenOf c, rest).1 = childrenOf c := rfl
      rw [h2]
      simp only [List.cons.sizeOf_spec]
      omega
    · rw [if_neg h]
      have h2 : ((splitHead rest).1, c :: (splitHead rest).2).1 = (splitHead rest).1 := rfl
      rw [h2]
      simp only [List.cons.sizeOf_spec]
      omega

theorem splitHead_snd_sizeOf (l : List Node) : sizeOf (splitHead l).2 ≤ sizeOf l := by
  induction l with
  | nil => show sizeOf ([] : List Node) ≤ sizeOf ([] : List Node); omega
  | cons c rest ih =>
    show sizeOf (if isHeadElem c then (childrenOf c, rest) else
      ((splitHead rest).1, c :: (splitHead rest).2)).2 ≤ sizeOf (c :: rest)
    by_cases h : isHeadElem c = true
    · rw [if_pos h]
      have h2 : (childrenOf c, rest).2 = rest := rfl
      rw [h2]
      simp only [List.cons.sizeOf_spec]
      omega
    · rw [if_neg h]
      have h2 : ((splitHead rest).1, c :: (splitHead rest).2).2 = c :: (splitHead rest).2 := rfl
      rw [h2]
      simp only [List.cons.sizeOf_spec]
      omega

/-- `.join(options.indent ? "\n" : "")` applied to the result of rendering a
node list, propagating a thrown exception. -/
def joinRes (o : RenderOptions) (r : Except String (List String)) : Except String String :=
  match r with
  | Except.error e => Except.error e
  | Except.ok ss => Except.ok (String.intercalate (if o.indent then "\n" else "") ss)

mutual

/-- `renderInternal` from the source: dispatch on text / array / fragment /
document-wrapper / generic element.  A reserved sentinel name reaching the
generic branch is the JS `TypeError` thrown by `<${node.name}`. -/
def renderInternal : Node → RenderOptions → Nat → Except String String
  | Node.text s, o, indentation => Except.ok (createIndent o indentation ++ s)
  | Node.seq xs, o, indentation => joinRes o (renderList xs o indentation)
  | Node.elem NodeName.Fragment _ cs, o, indentation => joinRes o (renderList cs o indentation)
  | Node.elem NodeName.HTML _ cs, o, indentation =>
    let istr := createIndent o indentation
    let nl := if o.indent then "\n" else ""
    let hd := (splitHead cs).1
    let body := (splitHead cs).2
    match joinRes o (renderList hd o (indentation + 1)) with
    | Except.error e => Except.error e
    | Except.ok hs =>
      match joinRes o (renderList body o (indentation + 1)) with
      | Except.error e => Except.error e
      | Except.ok bs =>
        Except.ok (istr ++ "<!DOCTYPE html>" ++ nl ++
          istr ++ "<html>" ++ nl ++
          istr ++ "<head>" ++ nl ++
          hs ++ (if o.indent && hd.length > 0 then "\n" else "") ++
          istr ++ "</head>" ++ nl ++
          istr ++ "<body>" ++ nl ++
          bs ++ (if body.length > 0 && o.indent then "\n" else "") ++
          istr ++ "</body>" ++ nl ++
          istr ++ "</html>")
  | Node.elem (NodeName.str nm) props cs, o, indentation =>
    let selfClose := selfCloseFlag cs o.useSelfCloseTags nm
    let attrs := createAttrs (applyClassAlias props)
    let istr := createIndent o indentation
    let openTag := istr ++ "<" ++ nm ++ attrs ++ (if selfClose then " /" else "") ++ ">"
    if selfClose then Except.ok openTag
    else
      match renderList cs o (indentation + 1) with
      | Except.error e => Except.error e
      | Except.ok ss =>
        Except.ok (openTag ++
          (if cs.length > 0 && o.indent then "\n" else "") ++
          String.intercalate (if o.indent then "\n" else "") ss ++
          (if cs.length > 0 && o.indent then "\n" ++ istr else "") ++
          "</" ++ nm ++ ">")
  | Node.elem NodeName.CASE _ _, _, _ => Except.error symbolErr
  | Node.elem NodeName.DEFAULT _ _, _, _ => Except.error symbolErr
  | Node.elem NodeName.HEAD _ _, _, _ => Except.error symbolErr
termination_by n _ _ => sizeOf n
decreasing_by
  all_goals simp_wf
  all_goals first
  | (have h1 := splitHead_fst_sizeOf cs
     simp only [List.cons.sizeOf_spec] at *
     omega)
  | (have h2 := splitHead_snd_sizeOf cs
     simp only [List.cons.sizeOf_spec] at *
     omega)
  | omega

/-- `node.map(n => renderInternal(n, options, indentation))`, evaluated left
to right with the first thrown exception propagating. -/
def renderList : List Node → RenderOptions → Nat → Except String (List String)
  | [], _, _ => Except.ok []
  | x :: xs, o, indentation =>
    match renderInternal x o indentation with
    | Except.error e => Except.error e
    | Except.ok s =>
      match renderList xs o indentation with
      | Except.error e => Except.error e
      | Except.ok rest => Except.ok (s :: rest)
termination_by l _ _ => sizeOf l
decreasing_by
  all_goals simp_wf
  all_goals omega

end

/-- `render` from the source: fill in option defaults, then serialize. -/
def render (top : Node) (options : RenderOptionsIn) (indentation : Nat) : Except String String :=
  renderInternal top (resolveOptions options) indentation

/-- `c instanceof Element && c.name == CASE && c.props.c == expr` — the
predicate `Switch` scans its children with (an absent `c` property is
`undefined`, which is not loosely equal to any modelled scrutinee value). -/
def isMatchingCase (expr : JsValue) (c : Node) : Bool :=
  match c with
  | Node.elem NodeName.CASE props _ =>
    match props.lookup "c" with
    | some v => jsEq v expr
    | none => false
  | _ => false

/-- `c instanceof Element && c.name == DEFAULT`. -/
def isDefaultElem : Node → Bool
  | Node.elem NodeName.DEFAULT _ _ => true
  | _ => false

/-- `children.find(c => c instanceof Element && c.name == CASE && c.props.c == expr)`,
projected to the found element's `children`. -/
def findCaseChildren (expr : JsValue) : List Node → Option (List Node)
  | [] => none
  | c :: rest =>
    if isMatchingCase expr c then some (childrenOf c) else findCaseChildren expr rest

/-- `children.find(c => c instanceof Element && c.name == DEFAULT)`, projected
to the found element's `children`. -/
def findDefaultChildren : List Node → Option (List Node)
  | [] => none
  | c :: rest =>
    if isDefaultElem c then some (childrenOf c) else findDefaultChildren rest

/-- The `Switch` element generator from the source. -/
def Switch (expr : JsValue) (children : List Node) : Node :=
  match findCaseChildren expr children with
  | some cs => mkElement NodeName.Fragment [] cs
  | none =>
    match findDefaultChildren children with
    | some cs => mkElement NodeName.Fragment [] cs
    | none => mkElement NodeName.Fragment [] []

/-- The `Case` element generator: `new Element(CASE, { c }, children)`. -/
def Case (c : JsValue) (children : List Node) : Node :=
  mkElement NodeName.CASE [("c", c)] children

/-- The `Default` element generator: `new Element(DEFAULT, {}, children)`. -/
def Default (children : List Node) : Node :=
  mkElement NodeName.DEFAULT [] children

/-- The `Head` element generator: `new Element(HEAD, props, children)`. -/
def Head (props : Props) (children : List Node) : Node :=
  mkElement NodeName.HEAD props children

/-- The `HtmlPage` element generator: `new Element(HTML, props, children)`. -/
def HtmlPage (props : Props) (children : List Node) : Node :=
  mkElement NodeName.HTML props children

/-- Nodes whose rendering never reaches a sentinel-named element in the
generic serializer branch, following `renderInternal`'s traversal: for a
document wrapper the first `HEAD` child is consumed (its children are
rendered), while the remaining children are rendered generically. -/
def safeL : List Node → Bool
  | [] => true
  | Node.text _ :: rest => safeL rest
  | Node.seq xs :: rest => safeL xs && safeL rest
  | Node.elem NodeName.Fragment _ cs :: rest => safeL cs && safeL rest
  | Node.elem NodeName.HTML _ cs :: rest =>
    safeL (splitHead cs).1 && safeL (splitHead cs).2 && safeL rest
  | Node.elem (NodeName.str _) _ cs :: rest => safeL cs && safeL rest
  | Node.elem NodeName.CASE _ _ :: _ => false
  | Node.elem NodeName.DEFAULT _ _ :: _ => false
  | Node.elem NodeName.HEAD _ _ :: _ => false
termination_by l => sizeOf l
decreasing_by
  all_goals simp_wf
  all_goals first
  | (have h1 := splitHead_fst_sizeOf cs
     simp only [List.cons.sizeOf_spec] at *
     omega)
  | (have h2 := splitHead_snd_sizeOf cs
     simp only [List.cons.sizeOf_spec] at *
     omega)
  | omega

/-- A single node whose rendering never throws. -/
def renderSafe (n : Node) : Bool := safeL [n]

/-- Claim-side self-closing condition, written from the amended claim C9:
the option is the boolean `true`, or it is a tag-name list that contains the
element's name, or it is a list that JavaScript `==` coerces to `true`
(its comma-join converts to the number 1, e.g. `["1"]`). -/
def selfCloseSpec : SelfCloseOption → String → Bool
  | SelfCloseOption.bool b, _ => b
  | SelfCloseOption.list l, nm =>
    l.contains nm || (jsStringToNumber (String.intercalate "," l) == some 1)

/-- Trees produced by the library's construction path: text nodes, raw
arrays of built nodes, and elements made by the `Element` constructor
(`mkElement`) from built child inputs. -/
inductive Built : Node → Prop where
  | text (s : String) : Built (Node.text s)
  | seq (xs : List Node) : (∀ x ∈ xs, Built x) → Built (Node.seq xs)
  | elem (n : NodeName) (p : Props) (cs : List Node) :
      (∀ c ∈ cs, Built c) → Built (mkElement n p cs)

/-- The flattening invariant of claim C7: every element node of the tree has
a children list with no raw array and no fragment element at its top level,
recursively. -/
inductive FlatInv : Node → Prop where
  | text (s : String) : FlatInv (Node.text s)
  | seq (xs : List Node) : (∀ x ∈ xs, FlatInv x) → FlatInv (Node.seq xs)
  | elem (n : NodeName) (p : Props) (cs : List Node) :
      (∀ c ∈ cs, topFlat c = true) → (∀ c ∈ cs, FlatInv c) → FlatInv (Node.elem n p cs)

theorem intercalate_pair (sep a b : String) : String.intercalate sep [a, b] = a ++ sep ++ b := by
  simp [String.intercalate, String.intercalate.go]

theorem intercalate_single (sep a : String) : String.intercalate sep [a] = a := by
  simp [String.intercalate, String.intercalate.go]

theorem intercalate_empty (sep : String) : String.intercalate sep [] = "" := by
  simp [String.intercalate]

theorem splitHead_cons_head (c : Node) (rest : List Node) (h : isHeadElem c = true) :
    splitHead (c :: rest) = (childrenOf c, rest) := by
  simp [splitHead, h]

theorem splitHead_cons_not_head (c : Node) (rest : List Node) (h : isHeadElem c = false) :
    splitHead (c :: rest) = ((splitHead rest).1, c :: (splitHead rest).2) := by
  simp [splitHead, h]

theorem splitHead_append (q : Props) (hcs : List Node) :
    ∀ (pre post : List Node), (∀ x ∈ pre, isHeadElem x = false) →
    splitHead (pre ++ Node.elem NodeName.HEAD q hcs :: post) = (hcs, pre ++ post) := by
  intro pre
  induction pre with
  | nil =>
    intro post _
    rw [List.nil_append, splitHead_cons_head _ _ (by simp [isHeadElem])]
    rfl
  | cons c pre ih =>
    intro post h
    have hc : isHeadElem c = false := h c (by simp)
    rw [List.cons_append, splitHead_cons_not_head c _ hc,
      ih post (fun x hx => h x (by simp [hx])), List.cons_append]

theorem splitHead_no_head :
    ∀ (l : List Node), (∀ x ∈ l, isHeadElem x = false) → splitHead l = ([], l) := by
  intro l
  induction l with
  | nil => intro _; simp [splitHead]
  | cons c rest ih =>
    intro h
    have hc : isHeadElem c = false := h c (by simp)
    rw [splitHead_cons_not_head c _ hc, ih (fun x hx => h x (by simp [hx]))]

theorem findCaseChildren_cons_true (expr : JsValue) (c : Node) (rest : List Node)
    (h : isMatchingCase expr c = true) :
    findCaseChildren expr (c :: rest) = some (childrenOf c) := by
  simp [findCaseChildren, h]

theorem findCaseChildren_cons_false (expr : JsValue) (c : Node) (rest : List Node)
    (h : isMatchingCase expr c = false) :
    findCaseChildren expr (c :: rest) = findCaseChildren expr rest := by
  simp [findCaseChildren, h]

theorem findCaseChildren_append (expr : JsValue) :
    ∀ (pre rest : List Node), (∀ x ∈ pre, isMatchingCase expr x = false) →
    findCaseChildren expr (pre ++ rest) = findCaseChildren expr rest := by
  intro pre
  induction pre with
  | nil => intro rest _; rw [List.nil_append]
  | cons c pre ih =>
    intro rest h
    have hc : isMatchingCase expr c = false := h c (by simp)
    rw [List.cons_append, findCaseChildren_cons_false expr c _ hc,
      ih rest (fun x hx => h x (by simp [hx]))]

theorem findCaseChildren_none (expr : JsValue) :
    ∀ (l : List Node), (∀ x ∈ l, isMatchingCase expr x = false) →
    findCaseChildren expr l = none := by
  intro l
  induction l with
  | nil => intro _; simp [findCaseChildren]
  | cons c rest ih =>
    intro h
    have hc : isMatchingCase expr c = false := h c (by simp)
    rw [findCaseChildren_cons_false expr c _ hc]
    exact ih (fun x hx => h x (by simp [hx]))

theorem findDefaultChildren_cons_true (c : Node) (rest : List Node)
    (h : isDefaultElem c = true) :
    findDefaultChildren (c :: rest) = some (childrenOf c) := by
  simp [findDefaultChildren, h]

theorem findDefaultChildren_cons_false (c : Node) (rest : List Node)
    (h : isDefaultElem c = false) :
    findDefaultChildren (c :: rest) = findDefaultChildren rest := by
  simp [findDefaultChildren, h]

theorem findDefaultChildren_append :
    ∀ (pre rest : List Node), (∀ x ∈ pre, isDefaultElem x = false) →
    findDefaultChildren (pre ++ rest) = findDefaultChildren rest := by
  intro pre
  induction pre with
  | nil => intro rest _; rw [List.nil_append]
  | cons c pre ih =>
    intro rest h
    have hc : isDefaultElem c = false := h c (by simp)
    rw [List.cons_append, findDefaultChildren_cons_false c _ hc,
      ih rest (fun x hx => h x (by simp [hx]))]

theorem findDefaultChildren_none :
    ∀ (l : List Node), (∀ x ∈ l, isDefaultElem x = false) →
    findDefaultChildren l = none := by
  intro l
  induction l with
  | nil => intro _; simp [findDefaultChildren]
  | cons c rest ih =>
    intro h
    have hc : isDefaultElem c = false := h c (by simp)
    rw [findDefaultChildren_cons_false c _ hc]
    exact ih (fun x hx => h x (by simp [hx]))

theorem flatInv_of_mem_flatten :
    ∀ (l : List Node), (∀ c ∈ l, FlatInv c) → ∀ x ∈ flatten l, FlatInv x := by
  intro l
  induction l using flatten.induct with
  | case1 => simp [flatten]
  | case2 s rest ih =>
    intro h x hx
    rw [flatten_text_cons] at hx
    rcases List.mem_cons.mp hx with h1 | h1
    · rw [h1]; exact FlatInv.text s
    · exact ih (fun c hc => h c (by simp [hc])) x h1
  | case3 xs rest ih1 ih2 =>
    intro h x hx
    rw [flatten_seq_cons] at hx
    rcases List.mem_append.mp hx with h1 | h1
    · have hseq := h (Node.seq xs) (by simp)
      cases hseq with
      | seq _ hmem => exact ih1 hmem x h1
    · exact ih2 (fun c hc => h c (by simp [hc])) x h1
  | case4 p cs rest ih1 ih2 =>
    intro h x hx
    rw [flatten_frag_cons] at hx
    rcases List.mem_append.mp hx with h1 | h1
    · have hfrag := h (Node.elem NodeName.Fragment p cs) (by simp)
      cases hfrag with
      | elem _ _ _ _ hmem => exact ih1 hmem x h1
    · exact ih2 (fun c hc => h c (by simp [hc])) x h1
  | case5 s p cs rest ih =>
    intro h x hx
    rw [flatten_cons_of_topFlat _ _ (by simp [topFlat])] at hx
    rcases List.mem_cons.mp hx with h1 | h1
    · rw [h1]; exact h _ (by simp)
    · exact ih (fun c hc => h c (by simp [hc])) x h1
  | case6 p cs rest ih =>
    intro h x hx
    rw [flatten_cons_of_topFlat _ _ (by simp [topFlat])] at hx
    rcases List.mem_cons.mp hx with h1 | h1
    · rw [h1]; exact h _ (by simp)
    · exact ih (fun c hc => h c (by simp [hc])) x h1
  | case7 p cs rest ih =>
    intro h x hx
    rw [flatten_cons_of_topFlat _ _ (by simp [topFlat])] at hx
    rcases List.mem_cons.mp hx with h1 | h1
    · rw [h1]; exact h _ (by simp)
    · exact ih (fun c hc => h c (by simp [hc])) x h1
  | case8 p cs rest ih =>
    intro h x hx
    rw [flatten_cons_of_topFlat _ _ (by simp [topFlat])] at hx
    rcases List.mem_cons.mp hx with h1 | h1
    · rw [h1]; exact h _ (by simp)
    · exact ih (fun c hc => h c (by simp [hc])) x h1
  | case9 p cs rest ih =>
    intro h x hx
    rw [flatten_cons_of_topFlat _ _ (by simp [topFlat])] at hx
    rcases List.mem_cons.mp hx with h1 | h1
    · rw [h1]; exact h _ (by simp)
    · exact ih (fun c hc => h c (by simp [hc])) x h1

theorem node_sizeOf_pos (n : Node) : 0 < sizeOf n := by
  cases n <;> simp_arith

theorem list_node_sizeOf_pos (l : List Node) : 0 < sizeOf l := by
  cases l <;> simp_arith

theorem safeL_nil : safeL [] = true := by simp [safeL]

theorem safeL_cons (x : Node) (xs : List Node) : safeL (x :: xs) = (safeL [x] && safeL xs) := by
  cases x with
  | text s => simp [safeL]
  | seq ys => simp [safeL, Bool.and_assoc]
  | elem n p cs => cases n <;> simp [safeL, Bool.and_assoc]

theorem render_total_aux : ∀ (k : Nat),
    (∀ (n : Node), sizeOf n ≤ k → ∀ (o : RenderOptions) (ind : Nat),
      safeL [n] = true → ∃ s, renderInternal n o ind = Except.ok s)
    ∧ (∀ (l : List Node), sizeOf l ≤ k → ∀ (o : RenderOptions) (ind : Nat),
      safeL l = true → ∃ ss, renderList l o ind = Except.ok ss) := by
  intro k
  induction k with
  | zero =>
    constructor
    · intro n hn
      exact absurd hn (by have := node_sizeOf_pos n; omega)
    · intro l hl
      exact absurd hl (by have := list_node_sizeOf_pos l; omega)
  | succ k ih =>
    constructor
    · intro n hn o ind hsafe
      cases n with
      | text s => exact ⟨createIndent o ind ++ s, by simp [renderInternal]⟩
      | seq xs =>
        have hx : safeL xs = true := by simpa [safeL] using hsafe
        have hsz : sizeOf xs ≤ k := by
          have : sizeOf (Node.seq xs) = 1 + sizeOf xs := by
            simp only [Node.seq.sizeOf_spec]
          omega
        obtain ⟨ss, hss⟩ := ih.2 xs hsz o ind hx
        cases hres : renderInternal (Node.seq xs) o ind with
        | ok s => exact ⟨s, rfl⟩
        | error e => exact absurd hres (by simp [renderInternal, joinRes, hss])
      | elem nm p cs =>
        cases nm with
        | Fragment =>
          have hx : safeL cs = true := by simpa [safeL] using hsafe
          have hsz : sizeOf cs ≤ k := by
            have : sizeOf cs < sizeOf (Node.elem NodeName.Fragment p cs) := by
              simp only [Node.elem.sizeOf_spec]
              omega
            omega
          obtain ⟨ss, hss⟩ := ih.2 cs hsz o ind hx
          cases hres : renderInternal (Node.elem NodeName.Fragment p cs) o ind with
          | ok s => exact ⟨s, rfl⟩
          | error e => exact absurd hres (by simp [renderInternal, joinRes, hss])
        | HTML =>
          have hx : safeL (splitHead cs).1 = true ∧ safeL (splitHead cs).2 = true := by
            simpa [safeL] using hsafe
          have hcs : sizeOf cs < sizeOf (Node.elem NodeName.HTML p cs) := by
            simp only [Node.elem.sizeOf_spec]
            omega
          have hsz1 : sizeOf (splitHead cs).1 ≤ k := by
            have := splitHead_fst_sizeOf cs
            omega
          have hsz2 : sizeOf (splitHead cs).2 ≤ k := by
            have := splitHead_snd_sizeOf cs
            omega
          obtain ⟨ss1, hss1⟩ := ih.2 (splitHead cs).1 hsz1 o (ind + 1) hx.1
          obtain ⟨ss2, hss2⟩ := ih.2 (splitHead cs).2 hsz2 o (ind + 1) hx.2
          cases hres : renderInternal (Node.elem NodeName.HTML p cs) o ind with
          | ok s => exact ⟨s, rfl⟩
          | error e => exact absurd hres (by simp [renderInternal, joinRes, hss1, hss2])
        | str nm =>
          have hx : safeL cs = true := by simpa [safeL] using hsafe
          have hsz : sizeOf cs ≤ k := by
            have : sizeOf cs < sizeOf (Node.elem (NodeName.str nm) p cs) := by
              simp only [Node.elem.sizeOf_spec]
              omega
            omega
          obtain ⟨ss, hss⟩ := ih.2 cs hsz o (ind + 1) hx
          cases hres : renderInternal (Node.elem (NodeName.str nm) p cs) o ind with
          | ok s => exact ⟨s, rfl⟩
          | error e =>
            by_cases hsc : selfCloseFlag cs o.useSelfCloseTags nm = true
            · exact absurd hres (by simp [renderInternal, hsc])
            · exact absurd hres (by simp [renderInternal, hsc, hss])
        | CASE => exact absurd hsafe (by simp [safeL])
        | DEFAULT => exact absurd hsafe (by simp [safeL])
        | HEAD => exact absurd hsafe (by simp [safeL])
    · intro l hl o ind hsafe
      cases l with
      | nil => exact ⟨[], by simp [renderList]⟩
      | cons x xs =>
        rw [safeL_cons] at hsafe
        rcases Bool.and_eq_true_iff.mp hsafe with ⟨h1, h2⟩
        have hc : sizeOf (x :: xs) = 1 + sizeOf x + sizeOf xs := by
          simp only [List.cons.sizeOf_spec]
        have hszx : sizeOf x ≤ k := by
          have := list_node_sizeOf_pos xs
          omega
        have hszxs : sizeOf xs ≤ k := by
          have := node_sizeOf_pos x
          omega
        obtain ⟨sx, hsx⟩ := ih.1 x hszx o ind h1
        obtain ⟨ss, hss⟩ := ih.2 xs hszxs o ind h2
        exact ⟨sx :: ss, by simp [renderList, hsx, hss]⟩

theorem built_flatInv : ∀ (t : Node), Built t → FlatInv t := by
  intro t h
  induction h with
  | text s => exact FlatInv.text s
  | seq xs _ ih => exact FlatInv.seq xs ih
  | elem n p cs _ ih =>
    show FlatInv (Node.elem n p (flatten cs))
    exact FlatInv.elem n p (flatten cs) (topFlat_of_mem_flatten cs) (flatInv_of_mem_flatten cs ih)

theorem renderInternal_html_ok (p : Props) (cs : List Node) (o : RenderOptions) (ind : Nat)
    (hs bs : String)
    (h1 : joinRes o (renderList (splitHead cs).1 o (ind + 1)) = Except.ok hs)
    (h2 : joinRes o (renderList (splitHead cs).2 o (ind + 1)) = Except.ok bs) :
    renderInternal (Node.elem NodeName.HTML p cs) o ind =
      Except.ok (createIndent o ind ++ "<!DOCTYPE html>" ++ (if o.indent then "\n" else "") ++
        createIndent o ind ++ "<html>" ++ (if o.indent then "\n" else "") ++
        createIndent o ind ++ "<head>" ++ (if o.indent then "\n" else "") ++
        hs ++ (if o.indent && (splitHead cs).1.length > 0 then "\n" else "") ++
        createIndent o ind ++ "</head>" ++ (if o.indent then "\n" else "") ++
        createIndent o ind ++ "<body>" ++ (if o.indent then "\n" else "") ++
        bs ++ (if (splitHead cs).2.length > 0 && o.indent then "\n" else "") ++
        createIndent o ind ++ "</body>" ++ (if o.indent then "\n" else "") ++
        createIndent o ind ++ "</html>") := by
  simp only [renderInternal]
  rw [h1, h2]

theorem renderInternal_html_err_head (p : Props) (cs : List Node) (o : RenderOptions) (ind : Nat)
    (e : String)
    (h1 : joinRes o (renderList (splitHead cs).1 o (ind + 1)) = Except.error e) :
    renderInternal (Node.elem NodeName.HTML p cs) o ind = Except.error e := by
  simp only [renderInternal]
  rw [h1]

theorem renderInternal_html_err_body (p : Props) (cs : List Node) (o : RenderOptions) (ind : Nat)
    (hs e : String)
    (h1 : joinRes o (renderList (splitHead cs).1 o (ind + 1)) = Except.ok hs)
    (h2 : joinRes o (renderList (splitHead cs).2 o (ind + 1)) = Except.error e) :
    renderInternal (Node.elem NodeName.HTML p cs) o ind = Except.error e := by
  simp only [renderInternal]
  rw [h1, h2]

/-- C1: the claim states that a Generic element carrying `className` (and no
`class`) renders with a `class` attribute and that `className` is never
emitted as an attribute name.  The code does set `class` to `className`'s
value, but `createAttrs` then iterates every key of the property bag, so the
`className` attribute is emitted as well: a childless `div` with
`className="x"` renders as `<div className="x" class="x" />` under default
options.  This theorem evaluates the code at that failing input. -/
theorem C1_className_still_emitted :
    render (Node.elem (NodeName.str "div") [("className", JsValue.str "x")] [])
      defaultOptionsIn 0
      = Except.ok "<div className=\"x\" class=\"x\" />" := by
  simp only [render, renderInternal]
  rfl

/-- C2 counterexample: `Switch` compares case values with JavaScript loose
equality (`==`), so a `Case` whose value is the string `"2"` does match the
number scrutinee `2`, contradicting the claim that cross-type cases never
match. -/
theorem C2_counterexample :
    Switch (JsValue.num 2) [Node.elem NodeName.CASE [("c", JsValue.str "2")] [Node.text "matched"]]
      = Node.elem NodeName.Fragment [] [Node.text "matched"] := by
  have hm : isMatchingCase (JsValue.num 2)
      (Node.elem NodeName.CASE [("c", JsValue.str "2")] [Node.text "matched"]) = true := by
    simp [isMatchingCase, jsEq]
    rfl
  simp only [Switch, findCaseChildren_cons_true _ _ _ hm, childrenOf, mkElement, flatten]

/-- C2 amended: `Switch` matching uses JavaScript loose equality `==`:
same-type values (two numbers, two strings) compare by exact value, but
across types a numeric string coerces to its number, so `Case c="2"` matches
the scrutinee `2`.  The first conjunct characterizes one scan step of the
resolution; the rest characterize the equality actually used. -/
theorem C2_switch_loose_equality :
    (∀ (expr v : JsValue) (cs rest : List Node),
      Switch expr (Node.elem NodeName.CASE [("c", v)] cs :: rest)
        = if jsEq v expr then mkElement NodeName.Fragment [] cs else Switch expr rest)
    ∧ (∀ a b : Int, jsEq (JsValue.num a) (JsValue.num b) = (a == b))
    ∧ (∀ a b : String, jsEq (JsValue.str a) (JsValue.str b) = (a == b))
    ∧ jsEq (JsValue.str "2") (JsValue.num 2) = true := by
  refine ⟨?_, fun a b => rfl, fun a b => rfl, by rfl⟩
  intro expr v cs rest
  by_cases h : jsEq v expr = true
  · have hm : isMatchingCase expr (Node.elem NodeName.CASE [("c", v)] cs) = true := by
      simp [isMatchingCase, List.lookup, h]
    simp [Switch, findCaseChildren_cons_true _ _ _ hm, childrenOf, h]
  · have hf : jsEq v expr = false := by simpa using h
    have hm : isMatchingCase expr (Node.elem NodeName.CASE [("c", v)] cs) = false := by
      simp [isMatchingCase, List.lookup, hf]
    have hd : isDefaultElem (Node.elem NodeName.CASE [("c", v)] cs) = false := by
      simp [isDefaultElem]
    simp [Switch, findCaseChildren_cons_false _ _ _ hm, findDefaultChildren_cons_false _ _ hd, hf]

/-- C6: flattening is idempotent — `flatten (flatten L) = flatten L` for any
nested list of nodes — and flattening an already-flat list (no raw array,
no fragment element at the top level) returns a list equal to it. -/
theorem C6_flatten_idempotent (L : List Node) :
    flatten (flatten L) = flatten L
    ∧ ((∀ x ∈ L, topFlat x = true) → flatten L = L) :=
  ⟨flatten_idem L, flatten_of_topFlat L⟩

/-- C6 witness: idempotence evaluated on a concrete nested list, and the
flat-list hypothesis discharged on a concrete flat list. -/
theorem C6_witness :
    flatten (flatten [Node.seq [Node.text "a"], Node.text "b"])
      = flatten [Node.seq [Node.text "a"], Node.text "b"]
    ∧ flatten [Node.text "a", Node.text "b"] = [Node.text "a", Node.text "b"] :=
  ⟨(C6_flatten_idempotent [Node.seq [Node.text "a"], Node.text "b"]).1,
   (C6_flatten_idempotent [Node.text "a", Node.text "b"]).2 (by
      intro x hx
      rcases List.mem_cons.mp hx with h | h
      · rw [h]; rfl
      · rcases List.mem_cons.mp h with h2 | h2
        · rw [h2]; rfl
        · simp at h2)⟩

/-- C7: every tree produced by the construction path (elements built by the
`Element` constructor, which flattens its children) satisfies the invariant
that no element's children list directly contains a raw array or a fragment
element, recursively at every node. -/
theorem C7_built_trees_flat (t : Node) (h : Built t) : FlatInv t :=
  built_flatInv t h

/-- C7 witness: a concrete constructed element (with a nested array child
input) is `Built`, and the invariant follows by the claim theorem. -/
theorem C7_witness :
    Built (mkElement (NodeName.str "div") [] [Node.seq [Node.text "a"], Node.text "b"])
    ∧ FlatInv (mkElement (NodeName.str "div") [] [Node.seq [Node.text "a"], Node.text "b"]) := by
  have hb : Built (mkElement (NodeName.str "div") [] [Node.seq [Node.text "a"], Node.text "b"]) := by
    apply Built.elem
    intro c hc
    rcases List.mem_cons.mp hc with h1 | h1
    · rw [h1]
      apply Built.seq
      intro x hx
      rcases List.mem_cons.mp hx with h2 | h2
      · rw [h2]; exact Built.text "a"
      · simp at h2
    · rcases List.mem_cons.mp h1 with h2 | h2
      · rw [h2]; exact Built.text "b"
      · simp at h2
  exact ⟨hb, C7_built_trees_flat _ hb⟩

/-- C3 counterexample: rendering a standalone `Case` element (a reserved
sentinel reaching the generic serializer branch) does not return a string —
it throws a `TypeError` when the template literal interpolates the symbol
name — contradicting the claim that `render` is total over such nodes. -/
theorem C3_counterexample :
    render (Case (JsValue.num 1) []) defaultOptionsIn 0 = Except.error symbolErr := by
  simp only [render, Case, mkElement, flatten, renderInternal]

/-- C3 amended: `render` is total and returns a string for every well-formed
node whose traversal never lets a reserved `HEAD`/`CASE`/`DEFAULT` sentinel
element reach the generic serializer branch (`renderSafe`); a standalone
sentinel element instead raises a `TypeError`. -/
theorem C3_render_total_of_safe (node : Node) (o : RenderOptions) (ind : Nat)
    (h : renderSafe node = true) : ∃ s, renderInternal node o ind = Except.ok s :=
  (render_total_aux (sizeOf node)).1 node le_rfl o ind (by simpa [renderSafe] using h)

/-- C3 witness: a concrete safe node, with the safety hypothesis discharged
by evaluation and totality obtained from the claim theorem. -/
theorem C3_witness :
    renderSafe (Node.elem (NodeName.str "div") [] [Node.text "hi"]) = true
    ∧ ∃ s, renderInternal (Node.elem (NodeName.str "div") [] [Node.text "hi"])
        defaultResolved 0 = Except.ok s := by
  have hsafe : renderSafe (Node.elem (NodeName.str "div") [] [Node.text "hi"]) = true := by
    simp [renderSafe, safeL]
  exact ⟨hsafe, C3_render_total_of_safe _ defaultResolved 0 hsafe⟩

/-- C4: rendering a document wrapper extracts the first `HEAD`-kind child
(its children become the head content; absent such a child the head content
is empty), removes it from the body children, and emits, in order and at the
wrapper's own indent level, the doctype line, `<html>`, `<head>`, the head
content one level deeper, `</head>`, `<body>`, the remaining children one
level deeper, `</body>`, `</html>`. -/
theorem C4_document_emission (p : Props) (cs : List Node) (o : RenderOptions) (ind : Nat) :
    (∀ (pre post hcs : List Node) (q : Props),
      cs = pre ++ Node.elem NodeName.HEAD q hcs :: post →
      (∀ x ∈ pre, isHeadElem x = false) →
      splitHead cs = (hcs, pre ++ post))
    ∧ ((∀ x ∈ cs, isHeadElem x = false) → splitHead cs = ([], cs))
    ∧ (∀ (hs bs : String),
      joinRes o (renderList (splitHead cs).1 o (ind + 1)) = Except.ok hs →
      joinRes o (renderList (splitHead cs).2 o (ind + 1)) = Except.ok bs →
      renderInternal (Node.elem NodeName.HTML p cs) o ind =
        Except.ok (createIndent o ind ++ "<!DOCTYPE html>" ++ (if o.indent then "\n" else "") ++
          createIndent o ind ++ "<html>" ++ (if o.indent then "\n" else "") ++
          createIndent o ind ++ "<head>" ++ (if o.indent then "\n" else "") ++
          hs ++ (if o.indent && (splitHead cs).1.length > 0 then "\n" else "") ++
          createIndent o ind ++ "</head>" ++ (if o.indent then "\n" else "") ++
          createIndent o ind ++ "<body>" ++ (if o.indent then "\n" else "") ++
          bs ++ (if (splitHead cs).2.length > 0 && o.indent then "\n" else "") ++
          createIndent o ind ++ "</body>" ++ (if o.indent then "\n" else "") ++
          createIndent o ind ++ "</html>")) := by
  refine ⟨?_, ?_, ?_⟩
  · intro pre post hcs q hch hpre
    rw [hch]
    exact splitHead_append q hcs pre post hpre
  · intro h
    exact splitHead_no_head cs h
  · intro hs bs h1 h2
    exact renderInternal_html_ok p cs o ind hs bs h1 h2

/-- C4 witness: the document split evaluated on a wrapper with one `HEAD`
child containing `"T"` and one body child `"B"`, with default options. -/
theorem C4_witness :
    splitHead [Node.elem NodeName.HEAD [] [Node.text "T"], Node.text "B"]
      = ([Node.text "T"], [Node.text "B"])
    ∧ renderInternal
        (Node.elem NodeName.HTML [] [Node.elem NodeName.HEAD [] [Node.text "T"], Node.text "B"])
        defaultResolved 0
      = Except.ok "<!DOCTYPE html><html><head>T</head><body>B</body></html>" := by
  constructor
  · exact (C4_document_emission [] _ defaultResolved 0).1 [] [Node.text "B"] [Node.text "T"] []
      rfl (by intro x hx; simp at hx)
  · have h := (C4_document_emission []
      [Node.elem NodeName.HEAD [] [Node.text "T"], Node.text "B"] defaultResolved 0).2.2 "T" "B"
      (by
        rw [splitHead_cons_head _ _ (by rfl)]
        simp only [childrenOf]
        simp [renderList, renderInternal, joinRes, defaultResolved, resolveOptions,
          defaultOptionsIn, createIndent, intercalate_single])
      (by
        rw [splitHead_cons_head _ _ (by rfl)]
        simp only [childrenOf]
        simp [renderList, renderInternal, joinRes, defaultResolved, resolveOptions,
          defaultOptionsIn, createIndent, intercalate_single])
    exact h.trans (by rfl)

/-- C5: `Switch` resolution returns a `Fragment` of the children of the
first matching `CASE` child (in child order); with no match it returns a
`Fragment` of the first `DEFAULT` child's children; with neither it returns
an empty `Fragment`, which renders to the empty string. -/
theorem C5_switch_resolution (expr : JsValue) (children : List Node) :
    (∀ (pre post cs : List Node) (p : Props),
      children = pre ++ Node.elem NodeName.CASE p cs :: post →
      isMatchingCase expr (Node.elem NodeName.CASE p cs) = true →
      (∀ x ∈ pre, isMatchingCase expr x = false) →
      Switch expr children = mkElement NodeName.Fragment [] cs)
    ∧ ((∀ x ∈ children, isMatchingCase expr x = false) →
      ∀ (pre post cs : List Node) (p : Props),
      children = pre ++ Node.elem NodeName.DEFAULT p cs :: post →
      (∀ x ∈ pre, isDefaultElem x = false) →
      Switch expr children = mkElement NodeName.Fragment [] cs)
    ∧ ((∀ x ∈ children, isMatchingCase expr x = false ∧ isDefaultElem x = false) →
      Switch expr children = mkElement NodeName.Fragment [] []
      ∧ ∀ (o : RenderOptions) (ind : Nat),
        renderInternal (Switch expr children) o ind = Except.ok "") := by
  refine ⟨?_, ?_, ?_⟩
  · intro pre post cs p hch hmatch hpre
    rw [hch]
    simp only [Switch, findCaseChildren_append expr pre _ hpre,
      findCaseChildren_cons_true _ _ _ hmatch, childrenOf]
  · intro hall pre post cs p hch hpre
    have hc : findCaseChildren expr children = none := findCaseChildren_none expr children hall
    rw [hch] at hc ⊢
    simp only [Switch, hc, findDefaultChildren_append pre _ hpre,
      findDefaultChildren_cons_true (Node.elem NodeName.DEFAULT p cs) post (by rfl), childrenOf]
  · intro hall
    have hc : findCaseChildren expr children =
        none := findCaseChildren_none expr children (fun x hx => (hall x hx).1)
    have hd : findDefaultChildren children =
        none := findDefaultChildren_none children (fun x hx => (hall x hx).2)
    have hsw : Switch expr children = mkElement NodeName.Fragment [] [] := by
      simp only [Switch, hc, hd]
    refine ⟨hsw, ?_⟩
    intro o ind
    rw [hsw]
    simp only [mkElement, flatten_nil]
    simp only [renderInternal, renderList, joinRes, intercalate_empty]

/-- C5 witness: the three spec scenarios evaluated concretely — first match
wins over a duplicate, default fallback, and empty output with no default. -/
theorem C5_witness :
    Switch (JsValue.num 2)
        [Node.elem NodeName.CASE [("c", JsValue.num 1)] [Node.text "a"],
         Node.elem NodeName.CASE [("c", JsValue.num 2)] [Node.text "b"],
         Node.elem NodeName.CASE [("c", JsValue.num 2)] [Node.text "c"],
         Node.elem NodeName.DEFAULT [] [Node.text "d"]]
      = mkElement NodeName.Fragment [] [Node.text "b"]
    ∧ Switch (JsValue.num 9)
        [Node.elem NodeName.CASE [("c", JsValue.num 1)] [Node.text "a"],
         Node.elem NodeName.DEFAULT [] [Node.text "d"]]
      = mkElement NodeName.Fragment [] [Node.text "d"]
    ∧ Switch (JsValue.num 9) [Node.elem NodeName.CASE [("c", JsValue.num 1)] [Node.text "a"]]
      = mkElement NodeName.Fragment [] []
    ∧ renderInternal
        (Switch (JsValue.num 9) [Node.elem NodeName.CASE [("c", JsValue.num 1)] [Node.text "a"]])
        defaultResolved 0
      = Except.ok "" := by
  refine ⟨?_, ?_, ?_, ?_⟩
  · exact (C5_switch_resolution (JsValue.num 2) _).1
      [Node.elem NodeName.CASE [("c", JsValue.num 1)] [Node.text "a"]]
      [Node.elem NodeName.CASE [("c", JsValue.num 2)] [Node.text "c"],
       Node.elem NodeName.DEFAULT [] [Node.text "d"]]
      [Node.text "b"] [("c", JsValue.num 2)] rfl (by rfl)
      (by
        intro x hx
        rcases List.mem_cons.mp hx with h | h
        · rw [h]; rfl
        · simp at h)
  · exact (C5_switch_resolution (JsValue.num 9) _).2.1
      (by
        intro x hx
        rcases List.mem_cons.mp hx with h | h
        · rw [h]; rfl
        · rcases List.mem_cons.mp h with h2 | h2
          · rw [h2]; rfl
          · simp at h2)
      [Node.elem NodeName.CASE [("c", JsValue.num 1)] [Node.text "a"]] [] [Node.text "d"] []
      rfl
      (by
        intro x hx
        rcases List.mem_cons.mp hx with h | h
        · rw [h]; rfl
        · simp at h)
  · exact ((C5_switch_resolution (JsValue.num 9) _).2.2
      (by
        intro x hx
        rcases List.mem_cons.mp hx with h | h
        · rw [h]; exact ⟨rfl, rfl⟩
        · simp at h)).1
  · exact ((C5_switch_resolution (JsValue.num 9) _).2.2
      (by
        intro x hx
        rcases List.mem_cons.mp hx with h | h
        · rw [h]; exact ⟨rfl, rfl⟩
        · simp at h)).2 defaultResolved 0

/-- C8: fragments are render-transparent — rendering a fragment element with
children `[A, B]` equals rendering the raw sequence `[A, B]` (same options,
same indent level), and the sequence rendering joins the two item renderings
with a newline when `indent` is set and with the empty string otherwise. -/
theorem C8_fragment_transparency (A B : Node) (p : Props) (o : RenderOptions) (n : Nat) :
    renderInternal (Node.elem NodeName.Fragment p [A, B]) o n
      = renderInternal (Node.seq [A, B]) o n
    ∧ (∀ a b : String,
      renderInternal A o n = Except.ok a →
      renderInternal B o n = Except.ok b →
      renderInternal (Node.seq [A, B]) o n
        = Except.ok (a ++ (if o.indent then "\n" else "") ++ b)) := by
  constructor
  · simp only [renderInternal]
  · intro a b ha hb
    simp only [renderInternal, renderList, ha, hb, joinRes]
    rw [intercalate_pair]

/-- C8 witness: transparency and the join rule evaluated on two text nodes
under default options. -/
theorem C8_witness :
    renderInternal (Node.elem NodeName.Fragment [] [Node.text "x", Node.text "y"])
        defaultResolved 0
      = renderInternal (Node.seq [Node.text "x", Node.text "y"]) defaultResolved 0
    ∧ renderInternal (Node.seq [Node.text "x", Node.text "y"]) defaultResolved 0
      = Except.ok ("x" ++ (if defaultResolved.indent then "\n" else "") ++ "y") :=
  ⟨(C8_fragment_transparency (Node.text "x") (Node.text "y") [] defaultResolved 0).1,
   (C8_fragment_transparency (Node.text "x") (Node.text "y") [] defaultResolved 0).2 "x" "y"
     (by simp only [renderInternal]; rfl)
     (by simp only [renderInternal]; rfl)⟩

/-- C9 counterexample: with `useSelfCloseTags = ["1"]`, a childless `div`
renders self-closing even though `"div"` is not in the list, because the
source compares the option to `true` with JavaScript `==` and `["1"] == true`
holds (the array's comma-join coerces to the number 1).  This contradicts
the claim's "exactly when ... the set contains the element's name". -/
theorem C9_counterexample :
    render (Node.elem (NodeName.str "div") [] [])
        ⟨none, none, none, some (SelfCloseOption.list ["1"])⟩ 0
      = Except.ok "<div />"
    ∧ (["1"] : List String).contains "div" = false := by
  constructor
  · simp only [render, renderInternal]
    rfl
  · rfl

/-- C9 amended: a Generic element renders self-closing exactly when it has
zero children and the `selfClosing` option is the boolean `true`, or is a
list containing the element's name, or is a list that JavaScript `==`
coerces to `true` (e.g. `["1"]`); the four concrete examples of the claim
hold as stated. -/
theorem C9_selfclosing_amended :
    (∀ (cs : List Node) (sc : SelfCloseOption) (nm : String),
      selfCloseFlag cs sc nm = (cs.isEmpty && selfCloseSpec sc nm))
    ∧ render (Node.elem (NodeName.str "img") [] [])
        ⟨none, none, none, some (SelfCloseOption.bool true)⟩ 0 = Except.ok "<img />"
    ∧ render (Node.elem (NodeName.str "img") [] [])
        ⟨none, none, none, some (SelfCloseOption.bool false)⟩ 0 = Except.ok "<img></img>"
    ∧ render (Node.elem (NodeName.str "img") [] [])
        ⟨none, none, none, some (SelfCloseOption.list ["img"])⟩ 0 = Except.ok "<img />"
    ∧ render (Node.elem (NodeName.str "img") [] [])
        ⟨none, none, none, some (SelfCloseOption.list ["br"])⟩ 0 = Except.ok "<img></img>" := by
  refine ⟨?_, ?_, ?_, ?_, ?_⟩
  · intro cs sc nm
    cases cs with
    | nil =>
      cases sc with
      | bool b =>
        simp [selfCloseFlag, selfCloseEnabled, jsEqTrueSelfClose, selfCloseListHas, selfCloseSpec]
      | list l =>
        cases h1 : l.contains nm <;>
          cases h2 : (jsStringToNumber (String.intercalate "," l) == some 1) <;>
            simp [selfCloseFlag, selfCloseEnabled, jsEqTrueSelfClose, selfCloseListHas,
              selfCloseSpec, h1, h2]
    | cons c cs' =>
      cases sc <;>
        simp [selfCloseFlag, selfCloseEnabled, jsEqTrueSelfClose, selfCloseListHas, selfCloseSpec]
  · simp only [render, renderInternal, renderList, joinRes]
    rfl
  · simp only [render, renderInternal, renderList, joinRes]
    rfl
  · simp only [render, renderInternal, renderList, joinRes]
    rfl
  · simp only [render, renderInternal, renderList, joinRes]
    rfl

/-- C10: rendering a document wrapper ignores the wrapper's attributes
entirely — two wrappers with equal children render identically regardless of
their property bags — and any successful rendering starts with the doctype
line followed by a bare `<html>` open tag carrying no attribute text. -/
theorem C10_document_ignores_attrs :
    (∀ (p1 p2 : Props) (cs : List Node) (o : RenderOptions) (ind : Nat),
      renderInternal (Node.elem NodeName.HTML p1 cs) o ind
        = renderInternal (Node.elem NodeName.HTML p2 cs) o ind)
    ∧ (∀ (p : Props) (cs : List Node) (o : RenderOptions) (ind : Nat) (s : String),
      renderInternal (Node.elem NodeName.HTML p cs) o ind = Except.ok s →
      ∃ rest : String,
        s = createIndent o ind ++ "<!DOCTYPE html>" ++ (if o.indent then "\n" else "") ++
          createIndent o ind ++ "<html>" ++ (if o.indent then "\n" else "") ++ rest) := by
  constructor
  · intro p1 p2 cs o ind
    simp only [renderInternal]
  · intro p cs o ind s h
    cases h1 : joinRes o (renderList (splitHead cs).1 o (ind + 1)) with
    | error e =>
      rw [renderInternal_html_err_head p cs o ind e h1] at h
      exact absurd h (by simp)
    | ok hs =>
      cases h2 : joinRes o (renderList (splitHead cs).2 o (ind + 1)) with
      | error e =>
        rw [renderInternal_html_err_body p cs o ind hs e h1 h2] at h
        exact absurd h (by simp)
      | ok bs =>
        have heq := renderInternal_html_ok p cs o ind hs bs h1 h2
        rw [h] at heq
        have hse := Except.ok.inj heq
        refine ⟨createIndent o ind ++ "<head>" ++ (if o.indent then "\n" else "") ++
          hs ++ (if o.indent && (splitHead cs).1.length > 0 then "\n" else "") ++
          createIndent o ind ++ "</head>" ++ (if o.indent then "\n" else "") ++
          createIndent o ind ++ "<body>" ++ (if o.indent then "\n" else "") ++
          bs ++ (if (splitHead cs).2.length > 0 && o.indent then "\n" else "") ++
          createIndent o ind ++ "</body>" ++ (if o.indent then "\n" else "") ++
          createIndent o ind ++ "</html>", ?_⟩
        rw [hse]
        simp only [String.append_assoc]

/-- C10 witness: two document wrappers with different property bags and the
same children render identically, and the concrete output starts with the
doctype and a bare `<html>` tag. -/
theorem C10_witness :
    renderInternal (Node.elem NodeName.HTML [("lang", JsValue.str "en")] [Node.text "B"])
        defaultResolved 0
      = renderInternal (Node.elem NodeName.HTML [] [Node.text "B"]) defaultResolved 0
    ∧ ∃ rest : String,
        "<!DOCTYPE html><html><head></head><body>B</body></html>"
          = createIndent defaultResolved 0 ++ "<!DOCTYPE html>" ++
            (if defaultResolved.indent then "\n" else "") ++
            createIndent defaultResolved 0 ++ "<html>" ++
            (if defaultResolved.indent then "\n" else "") ++ rest :=
  ⟨(C10_document_ignores_attrs).1 [("lang", JsValue.str "en")] [] [Node.text "B"]
      defaultResolved 0,
   (C10_document_ignores_attrs).2 [] [Node.text "B"] defaultResolved 0
     "<!DOCTYPE html><html><head></head><body>B</body></html>"
     (by
        simp [renderInternal, renderList, joinRes, splitHead, isHeadElem, childrenOf]
        rfl)⟩

end TJsx
